import Mathlib

/-!
Verification of the Universal-Interface-Ai front end.

Strings are modelled as lists of characters (`Str`); JavaScript string
operations used by the source (split, trim, startsWith, includes,
toLowerCase, replace-first) are given executable structural definitions
on `Str` so that all concrete evaluations go through `decide`.
-/

/-- JavaScript strings, modelled as lists of characters. -/
abbrev Str := List Char

/-- The whitespace characters removed by JavaScript `String.prototype.trim`
(the common ASCII whitespace plus NBSP and BOM). -/
def isJsWhitespace (c : Char) : Bool :=
  c == ' ' || c == '\t' || c == '\n' || c == '\r' ||
  c == Char.ofNat 11 || c == Char.ofNat 12 || c == Char.ofNat 0xA0 || c == Char.ofNat 0xFEFF

/-- JavaScript `s.trim()`: drop whitespace from both ends. -/
def trimStr (s : Str) : Str :=
  ((s.dropWhile isJsWhitespace).reverse.dropWhile isJsWhitespace).reverse

/-- JavaScript `s.split('\n')`: split into lines, keeping empty segments.
`splitLines [] = [[]]` just as `"".split('\n') = [""]`. -/
def splitLines : Str → List Str
  | [] => [[]]
  | c :: cs =>
    match splitLines cs with
    | [] => [[c]]
    | r :: rs => if c == '\n' then [] :: r :: rs else (c :: r) :: rs

/-- Join a list of lines with `'\n'`, the inverse of `splitLines`
(JavaScript `lines.join('\n')`). -/
def joinLines (lines : List Str) : Str :=
  List.intercalate ['\n'] lines

/-- JavaScript `s.includes(pat)`: substring containment test. -/
def includesStr (s pat : Str) : Bool :=
  pat.isPrefixOf s ||
    match s with
    | [] => false
    | _ :: rest => includesStr rest pat

/-- JavaScript `s.replace(pat, '')` for a *string* pattern: remove the first
occurrence of `pat`, leave `s` unchanged when `pat` does not occur. -/
def removeFirstOcc (pat : Str) : Str → Str
  | [] => []
  | c :: cs =>
    if pat.isPrefixOf (c :: cs) then (c :: cs).drop pat.length
    else c :: removeFirstOcc pat cs

/-- JavaScript `s.toLowerCase()` (ASCII case folding). -/
def lowerStr (s : Str) : Str := s.map Char.toLower

/-! ## Section parser (src/unnamed/part_001, lines 26-71) -/

/-- `Section` record from src/unnamed/part_001 lines 26-29:
`{ title: string, content: string }`. -/
structure Section where
  title : Str
  content : Str
deriving DecidableEq, Repr

/-- `line.startsWith('### ')` from src/unnamed/part_001 line 49. -/
def isHeading (l : Str) : Bool :=
  ("### ".data).isPrefixOf l

/-- `line.replace('### ', '').trim()` from src/unnamed/part_001 line 56. -/
def titleOf (line : Str) : Str :=
  trimStr (removeFirstOcc ("### ".data) line)

/-- `markdown.split(/(^|\n)### /g)[0]` from src/unnamed/part_001 line 35:
the regex matches `"### "` at the start of a line (string start or right
after a newline), so the part before the first match is the join of the
leading non-heading lines (the whole string when no line is a heading,
and `""` when the string starts with `"### "`). -/
def parts0 (markdown : Str) : Str :=
  joinLines ((splitLines markdown).takeWhile (fun l => !(isHeading l)))

/-- The `lines.forEach` fold of src/unnamed/part_001 lines 48-68, including
the final push: a heading line closes the current section (emitted when it
has content or a non-default title) and opens a new one; at the end of input
the last section is emitted only when its content is non-empty. -/
def sectionsLoop (currentTitle : Str) (currentContent : List Str) : List Str → List Section
  | [] =>
    if currentContent.length > 0 then
      [⟨currentTitle, joinLines currentContent⟩]
    else []
  | line :: rest =>
    if isHeading line then
      (if currentContent.length > 0 ∨ currentTitle ≠ "Overview".data then
        [⟨currentTitle, joinLines currentContent⟩]
       else []) ++ sectionsLoop (titleOf line) [] rest
    else
      sectionsLoop currentTitle (currentContent ++ [line]) rest

/-- `parseSections` from src/unnamed/part_001 lines 31-71: the guard
`if (!markdown) return []`, then the `parts[0]` "Overview" preamble push
(lines 39-42), then the line scan (lines 44-68). -/
def parseSections (markdown : Str) : List Section :=
  if markdown = [] then []
  else
    (if parts0 markdown ≠ [] ∧ trimStr (parts0 markdown) ≠ [] ∧
        ("###".data).isPrefixOf markdown = false then
      [⟨"Overview".data, parts0 markdown⟩]
     else []) ++ sectionsLoop ("Overview".data) [] (splitLines markdown)

/-! ## Local history (src/unnamed/part_001, lines 74-134) -/

/-- `HistoryItem` from src/unnamed/part_001 lines 74-79. In the source both
`id` and `timestamp` come from `Date.now()` at insertion time (`id` as its
decimal string); the insertion instant is the `now` parameter below. -/
structure HistoryItem where
  id : Nat
  timestamp : Nat
  task : Str
  result : Str
deriving DecidableEq, Repr

/-- `saveToHistory` from src/unnamed/part_001 lines 119-134: build the new
item, return the history unchanged on an exact `(task, result)` duplicate,
otherwise prepend and keep the first 20 entries (`slice(0, 20)`). -/
def saveToHistory (now : Nat) (history : List HistoryItem)
    (taskPrompt newResult : Str) : List HistoryItem :=
  let newItem : HistoryItem := ⟨now, now, taskPrompt, newResult⟩
  let isDuplicate := history.any fun h => h.task == taskPrompt && h.result == newResult
  if isDuplicate then history
  else (newItem :: history).take 20

/-! ## Export section filter (src/components/PdfPreviewModal.tsx, lines 144-148) -/

/-- The filter callback of `filteredSections` (PdfPreviewModal.tsx lines
144-148): `if (!includeJson && title.toLowerCase().includes('automation
json')) return false; if (!includeA11y &&
title.toLowerCase().includes('accessibility')) return false; return true`. -/
def sectionIncluded (includeJson includeA11y : Bool) (s : Section) : Bool :=
  if !includeJson && includesStr (lowerStr s.title) ("automation json".data) then false
  else if !includeA11y && includesStr (lowerStr s.title) ("accessibility".data) then false
  else true

/-- `filteredSections` from PdfPreviewModal.tsx lines 144-148. -/
def filteredSections (sections : List Section) (includeJson includeA11y : Bool) :
    List Section :=
  sections.filter (sectionIncluded includeJson includeA11y)

/-! ## Analysis service model fallback (src/services/gemini.ts, lines 54-113) -/

/-- The error value a failed `generateContent` call rejects with: a message
and an optional numeric `status` field. -/
structure GeminiError where
  message : Str
  status : Option Nat
deriving DecidableEq, Repr

/-- The "not found" test of gemini.ts lines 90-94:
`primaryError.message?.includes("404") || primaryError.status === 404 ||
primaryError.message?.includes("not found")`. -/
def isNotFoundError (e : GeminiError) : Bool :=
  includesStr e.message ("404".data) || e.status == some 404 ||
    includesStr e.message ("not found".data)

/-- The outer catch of gemini.ts lines 108-112:
`throw new Error(err.message || "Unable to process the image.")`. -/
def mkClientError (e : GeminiError) : GeminiError :=
  ⟨if e.message = [] then "Unable to process the image.".data else e.message, none⟩

/-- `runUniversalInterface` from gemini.ts lines 54-113, with the two
`generateContent` calls (the Pro model first, the Flash model as fallback)
abstracted as their outcomes `primary` and `fallback`: the inner catch
retries against the fallback model exactly on a "not found" failure,
re-throws otherwise, and the outer catch re-wraps any escaping error. -/
def runUniversalInterface (primary fallback : Except GeminiError Str) :
    Except GeminiError Str :=
  let inner : Except GeminiError Str :=
    match primary with
    | .ok t => .ok t
    | .error e => if isNotFoundError e then fallback else .error e
  match inner with
  | .ok t => .ok t
  | .error e => .error (mkClientError e)

/-! ## PDF page geometry and pagination (src/components/PdfPreviewModal.tsx) -/

/-- `const pageWidth = 210` (PdfPreviewModal.tsx line 75), in mm. -/
def pageWidth : ℚ := 210

/-- `const pageHeight = 297` (PdfPreviewModal.tsx line 76), in mm. -/
def pageHeight : ℚ := 297

/-- `const margin = 20` (PdfPreviewModal.tsx line 77), in mm. -/
def margin : ℚ := 20

/-- The fixed 5mm gutter added after each placed block
(`cursorY += imgHeight + 5`, PdfPreviewModal.tsx line 129). -/
def gutter : ℚ := 5

/-- A block placement: output page index and vertical offset. -/
structure Placement where
  page : Nat
  y : ℚ
deriving DecidableEq, Repr

/-- The pagination loop of PdfPreviewModal.tsx lines 114-130, for the given
sequence of already-rasterized block heights (in mm): if the block would
cross the bottom margin, `pdf.addPage()` and reset the cursor to the top
margin; place the block at the cursor; then advance the cursor by the block
height plus the gutter. Returns the placements and the final cursor. -/
def paginateRun (page : Nat) (cursorY : ℚ) : List ℚ → List Placement × ℚ
  | [] => ([], cursorY)
  | h :: hs =>
    if pageHeight - margin < cursorY + h then
      let r := paginateRun (page + 1) (margin + h + gutter) hs
      (⟨page + 1, margin⟩ :: r.1, r.2)
    else
      let r := paginateRun page (cursorY + h + gutter) hs
      (⟨page, cursorY⟩ :: r.1, r.2)

/-- "No page break occurs": starting from `cursorY`, every block in turn
satisfies the fit check `cursorY + height <= pageHeight - margin`. -/
def fitsAll (cursorY : ℚ) : List ℚ → Bool
  | [] => true
  | h :: hs => decide (cursorY + h ≤ pageHeight - margin) && fitsAll (cursorY + h + gutter) hs

/-- The dedicated screenshot page of PdfPreviewModal.tsx lines 86-93, given
the decoded image's pixel dimensions: `maxWidth = pageWidth - margin*2`,
`maxHeight = pageHeight - margin*2`, `ratio = min(maxWidth/w, maxHeight/h)`,
placed at `(margin + (maxWidth - w*ratio)/2, margin)` with size
`(w*ratio, h*ratio)`. Returns `(x, y, width, height)`. -/
def screenshotPlacement (propsWidth propsHeight : ℚ) : ℚ × ℚ × ℚ × ℚ :=
  let maxWidth := pageWidth - margin * 2
  let maxHeight := pageHeight - margin * 2
  let ratio := min (maxWidth / propsWidth) (maxHeight / propsHeight)
  let w := propsWidth * ratio
  let h := propsHeight * ratio
  (margin + (maxWidth - w) / 2, margin, w, h)

/-! ## Export pipeline cleanup (src/components/PdfPreviewModal.tsx, lines 42-141) -/

/-- The browser-visible effects of one `generatePdf` run: whether the
off-screen `.pdf-capture` node is still attached to `document.body`, whether
`pdf.save` produced a file, and whether the failure alert was shown. -/
structure DomPdfState where
  tempAttached : Bool
  pdfSaved : Bool
  alerted : Bool
deriving DecidableEq, Repr

/-- The block loop of PdfPreviewModal.tsx lines 114-130: each
`await html2canvas(block, ...)` either succeeds (`true`) or throws
(`false`), aborting the loop; drawing onto the pdf object does not change
the DOM state. -/
def rasterBlocks (st : DomPdfState) : List Bool → Except DomPdfState DomPdfState
  | [] => .ok st
  | ok :: rest => if ok then rasterBlocks st rest else .error st

/-- The `try` block of `generatePdf` (PdfPreviewModal.tsx lines 46-134), in
statement order: `document.body.appendChild(temp)` (line 51), the block
rasterization loop (lines 114-130), `pdf.save(...)` (line 133, modelled
fallible by `saveOk`), and only then `document.body.removeChild(temp)`
(line 134). A throw anywhere exits with the state at the throw point. -/
def generatePdfTryBody (blockOk : List Bool) (saveOk : Bool) :
    Except DomPdfState DomPdfState :=
  let st1 : DomPdfState := ⟨true, false, false⟩
  match rasterBlocks st1 blockOk with
  | .error st => .error st
  | .ok st2 =>
    if saveOk then
      let st3 : DomPdfState := { st2 with pdfSaved := true }
      .ok { st3 with tempAttached := false }
    else .error st2

/-- `generatePdf` from PdfPreviewModal.tsx lines 42-141: the try body, with
the `catch` (line 135-137) showing the alert — and, since `removeChild` sits
at the end of the `try` block rather than in the `finally`, leaving the DOM
state as the throw left it. -/
def generatePdfRun (blockOk : List Bool) (saveOk : Bool) : DomPdfState :=
  match generatePdfTryBody blockOk saveOk with
  | .ok st => st
  | .error st => { st with alerted := true }

/-! ## Plain-text conversion (src/unnamed/part_001, lines 14-23) -/

/-- The backquote character, U+0060. -/
def backtickChar : Char := Char.ofNat 96

/-- Membership in the character class of `.replace(/[*`+"`"+`>]/g, '')`
(src/unnamed/part_001 line 19). -/
def isSpecialChar (c : Char) : Bool :=
  c == '*' || c == backtickChar || c == '>'

/-- `.replace(/[*`+"`"+`>]/g, '')`: drop every such character. -/
def removeSpecialChars (s : Str) : Str :=
  s.filter (fun c => !(isSpecialChar c))

/-- One pass of `.replace(/^PAT/gm, '')`: the multiline anchor `^` matches
at each line start, and since JavaScript `replace` scans the original
string, at most one leading `PAT` is removed per line. -/
def stripLinePrefix (pat : Str) (s : Str) : Str :=
  joinLines ((splitLines s).map (fun l => if pat.isPrefixOf l then l.drop pat.length else l))

/-- Characters matched by the JavaScript regex `.` (anything but the four
line terminators). -/
def isDotChar (c : Char) : Bool :=
  !(c == '\n' || c == '\r' || c == Char.ofNat 0x2028 || c == Char.ofNat 0x2029)

/-- The lazy `.*?\)` tail of the link regex `\[(.*?)\]\(.*?\)`: consume dot
characters up to the FIRST `')'`; fail on a line terminator or end of
input. Returns the remainder after the `')'`. -/
def matchParen : Str → Option Str
  | [] => none
  | c :: cs =>
    if c == ')' then some cs
    else if isDotChar c then matchParen cs else none

/-- Attempt to close the link label here: the regex fragment `\]\(.*?\)`,
requiring `']'` at the current character, `'('` next, then `matchParen`. -/
def tryCloseAt (c : Char) (cs : Str) : Option (Str × Str) :=
  if c == ']' then
    match cs with
    | c2 :: cs2 =>
      if c2 == '(' then
        match matchParen cs2 with
        | some rest => some (([] : Str), rest)
        | none => none
      else none
    | [] => none
  else none

/-- The lazy `(.*?)` of the link regex with backtracking: at each position
first try to close the label (`tryCloseAt`), else extend the label with the
current character when the regex `.` can match it. Given the characters
after `'['`, returns the label and the remainder after the full match. -/
def matchAfterBracket : Str → Option (Str × Str)
  | [] => none
  | c :: cs =>
    match tryCloseAt c cs with
    | some r => some r
    | none =>
      if isDotChar c then
        match matchAfterBracket cs with
        | some (label, rest) => some (c :: label, rest)
        | none => none
      else none

/-- `.replace(/\[(.*?)\]\(.*?\)/g, '$1')` (src/unnamed/part_001 line 20):
left-to-right scan replacing each link match by its label. The `fuel`
argument (instantiated with the string length, an upper bound on the number
of scan steps, each of which consumes at least one character) makes the
recursion structural. -/
def replaceLinksAux : Nat → Str → Str
  | 0, s => s
  | _ + 1, [] => []
  | fuel + 1, c :: cs =>
    if c == '[' then
      match matchAfterBracket cs with
      | some (label, rest) => label ++ replaceLinksAux fuel rest
      | none => c :: replaceLinksAux fuel cs
    else c :: replaceLinksAux fuel cs

/-- `.replace(/\[(.*?)\]\(.*?\)/g, '$1')` at full fuel. -/
def replaceLinks (s : Str) : Str :=
  replaceLinksAux s.length s

/-- `.replace(/\n{2,}/g, '\n\n')` (src/unnamed/part_001 line 21): `n` counts
the newlines seen immediately before the current position; within a run only
the first two newlines are kept, so every maximal run of 2 or more newlines
collapses to exactly two. -/
def collapseAux : Nat → Str → Str
  | _, [] => []
  | n, c :: cs =>
    if c == '\n' then (if n < 2 then ['\n'] else []) ++ collapseAux (n + 1) cs
    else c :: collapseAux 0 cs

/-- `.replace(/\n{2,}/g, '\n\n')`. -/
def collapseNewlines (s : Str) : Str := collapseAux 0 s

/-- `cleanMarkdown` from src/unnamed/part_001 lines 14-23: strip `"### "`,
`"## "`, `"# "` at line starts, drop all `*`, backquote and `>` characters,
replace links by their labels, collapse newline runs, and trim. -/
def cleanMarkdown (md : Str) : Str :=
  trimStr (collapseNewlines (replaceLinks (removeSpecialChars
    (stripLinePrefix ("# ".data) (stripLinePrefix ("## ".data)
      (stripLinePrefix ("### ".data) md))))))

/-- Does the string start with one newline? -/
def startsNl : Str → Bool
  | c :: _ => c == '\n'
  | _ => false

/-- Does the string start with two newlines? -/
def startsNlNl : Str → Bool
  | c1 :: c2 :: _ => c1 == '\n' && c2 == '\n'
  | _ => false

/-- Does the string start with three newlines? -/
def startsNlNlNl : Str → Bool
  | c1 :: c2 :: c3 :: _ => c1 == '\n' && c2 == '\n' && c3 == '\n'
  | _ => false

/-- The string contains no run of three consecutive newlines. -/
def noTripleNl : Str → Bool
  | [] => true
  | c :: cs => !startsNlNlNl (c :: cs) && noTripleNl cs

/-- C1: parseSections on the empty input returns the empty sequence, but on
the non-empty heading-free input "hello" it returns the "Overview" section
TWICE (the `parts[0]` push of lines 39-42 and the final push of lines 63-68
both fire), not exactly once as the claim states. -/
theorem parseSections_no_heading_duplicates :
    parseSections [] = [] ∧
    parseSections ("hello".data) =
      [⟨"Overview".data, "hello".data⟩, ⟨"Overview".data, "hello".data⟩] := by
  constructor
  · rfl
  · decide

/-- C2: on the spec's scenario input the code returns FOUR sections: the
"Overview" section is duplicated ahead of the expected three-section list. -/
theorem parseSections_scenario_four_sections :
    parseSections (("Intro text\n### Steps\n1. Do X\n### Notes\nSome note").data) =
      [⟨"Overview".data, "Intro text".data⟩,
       ⟨"Overview".data, "Intro text".data⟩,
       ⟨"Steps".data, "1. Do X".data⟩,
       ⟨"Notes".data, "Some note".data⟩] := by
  decide

/-- C6 counterexample input: a heading line that is the last line of the
input is NOT emitted (the final push at lines 63-68 requires non-empty
content), so no section titled "Steps" appears. -/
theorem parseSections_trailing_heading_dropped :
    isHeading ("### Steps".data) = true ∧
    parseSections ("a\n### Steps".data) =
      [⟨"Overview".data, "a".data⟩, ⟨"Overview".data, "a".data⟩] ∧
    ¬(("Steps".data : Str) ∈ (parseSections ("a\n### Steps".data)).map Section.title) := by
  refine ⟨by decide, by decide, by decide⟩

/-- The section opened by the state `(t, c)` is emitted at the head of the
remaining `sectionsLoop` run, provided its accumulated content is non-empty
or its title is non-default with a later heading present. -/
theorem sectionsLoop_head_mem (ls : List Str) :
    ∀ (t : Str) (c : List Str),
      (c ++ ls.takeWhile (fun l => !(isHeading l)) ≠ [] ∨
        (t ≠ "Overview".data ∧ ls.any isHeading = true)) →
      (⟨t, joinLines (c ++ ls.takeWhile (fun l => !(isHeading l)))⟩ : Section) ∈
        sectionsLoop t c ls := by
  induction ls with
  | nil =>
    intro t c hcond
    simp only [List.takeWhile_nil, List.append_nil] at hcond ⊢
    rcases hcond with hne | ⟨_, hany⟩
    · have hlen : c.length > 0 := List.length_pos.mpr hne
      simp [sectionsLoop, hlen]
    · simp at hany
  | cons l rest ih =>
    intro t c hcond
    by_cases hl : isHeading l = true
    · have htw : (l :: rest).takeWhile (fun x => !(isHeading x)) = [] := by
        simp [List.takeWhile_cons, hl]
      rw [htw] at hcond ⊢
      simp only [List.append_nil] at hcond ⊢
      have hpush : c.length > 0 ∨ t ≠ "Overview".data := by
        rcases hcond with hne | ⟨ht, _⟩
        · exact Or.inl (List.length_pos.mpr hne)
        · exact Or.inr ht
      have hrw : sectionsLoop t c (l :: rest) =
          [⟨t, joinLines c⟩] ++ sectionsLoop (titleOf l) [] rest := by
        simp [sectionsLoop, hl, hpush]
      rw [hrw]
      exact List.mem_append_left _ (by simp)
    · have hl' : isHeading l = false := by simpa using hl
      have htw : (l :: rest).takeWhile (fun x => !(isHeading x)) =
          l :: rest.takeWhile (fun x => !(isHeading x)) := by
        simp [List.takeWhile_cons, hl']
      rw [htw]
      have hrw : sectionsLoop t c (l :: rest) = sectionsLoop t (c ++ [l]) rest := by
        simp [sectionsLoop, hl']
      rw [hrw]
      have hmem := ih t (c ++ [l]) (Or.inl (by simp))
      simpa [List.append_assoc] using hmem

/-- Walking `sectionsLoop` over any prefix `ls₁` preserves emission of the
section opened by a later heading `line`. -/
theorem sectionsLoop_mem_of_heading (ls₁ : List Str) :
    ∀ (t : Str) (c : List Str) (line : Str) (ls₂ : List Str),
      isHeading line = true →
      (ls₂.takeWhile (fun l => !(isHeading l)) ≠ [] ∨
        (titleOf line ≠ "Overview".data ∧ ls₂.any isHeading = true)) →
      (⟨titleOf line, joinLines (ls₂.takeWhile (fun l => !(isHeading l)))⟩ : Section) ∈
        sectionsLoop t c (ls₁ ++ line :: ls₂) := by
  induction ls₁ with
  | nil =>
    intro t c line ls₂ hline hcond
    simp only [List.nil_append]
    have hrw : sectionsLoop t c (line :: ls₂) =
        (if c.length > 0 ∨ t ≠ "Overview".data then [⟨t, joinLines c⟩] else []) ++
          sectionsLoop (titleOf line) [] ls₂ := by
      simp [sectionsLoop, hline]
    rw [hrw]
    apply List.mem_append_right
    have hmem := sectionsLoop_head_mem ls₂ (titleOf line) [] (by simpa using hcond)
    simpa using hmem
  | cons a ls₁' ih =>
    intro t c line ls₂ hline hcond
    by_cases ha : isHeading a = true
    · have hrw : sectionsLoop t c ((a :: ls₁') ++ line :: ls₂) =
          (if c.length > 0 ∨ t ≠ "Overview".data then [⟨t, joinLines c⟩] else []) ++
            sectionsLoop (titleOf a) [] (ls₁' ++ line :: ls₂) := by
        simp [sectionsLoop, ha]
      rw [hrw]
      exact List.mem_append_right _ (ih _ _ _ _ hline hcond)
    · have ha' : isHeading a = false := by simpa using ha
      have hrw : sectionsLoop t c ((a :: ls₁') ++ line :: ls₂) =
          sectionsLoop t (c ++ [a]) (ls₁' ++ line :: ls₂) := by
        simp [sectionsLoop, ha']
      rw [hrw]
      exact ih _ _ _ _ hline hcond

/-- C6 (amended): every heading line of the input yields an emitted Section
whose title is the line's remainder trimmed and whose content is the join of
the following lines up to the next heading, PROVIDED the heading has at
least one content line, or its trimmed title differs from "Overview" and a
later heading line exists. (A trailing heading with no content lines, and a
zero-content heading whose title trims to "Overview" followed by another
heading, are dropped.) -/
theorem parseSections_heading_emitted (md : Str) (ls₁ ls₂ : List Str) (line : Str)
    (hsplit : splitLines md = ls₁ ++ line :: ls₂)
    (hline : isHeading line = true)
    (hcond : ls₂.takeWhile (fun l => !(isHeading l)) ≠ [] ∨
      (titleOf line ≠ "Overview".data ∧ ls₂.any isHeading = true)) :
    (⟨titleOf line, joinLines (ls₂.takeWhile (fun l => !(isHeading l)))⟩ : Section) ∈
      parseSections md := by
  have hmd : ¬(md = []) := by
    intro h
    subst h
    have hss : ([[]] : List Str) = ls₁ ++ line :: ls₂ := by
      simpa [splitLines] using hsplit
    cases ls₁ with
    | nil =>
      simp only [List.nil_append] at hss
      have h1 : ([] : Str) = line := (List.cons.injEq _ _ _ _ ▸ hss).1
      rw [← h1] at hline
      simp [isHeading] at hline
    | cons x xs =>
      have h2 : ([] : List Str) = xs ++ line :: ls₂ := (List.cons.injEq _ _ _ _ ▸ hss).2
      exact absurd h2.symm (by simp)
  rw [parseSections, if_neg hmd]
  apply List.mem_append_right
  rw [hsplit]
  exact sectionsLoop_mem_of_heading ls₁ _ _ line ls₂ hline hcond

/-- Witness for the amended C6 theorem at a concrete input: in
`"### A\n### B\nx"` the zero-content heading `### A` is emitted because its
title is non-default and a later heading follows. -/
theorem parseSections_heading_emitted_witness :
    splitLines ("### A\n### B\nx".data) =
      [] ++ ("### A".data) :: ["### B".data, "x".data] ∧
    (⟨titleOf ("### A".data),
       joinLines (([("### B".data : Str), "x".data]).takeWhile (fun l => !(isHeading l)))⟩ :
      Section) ∈ parseSections ("### A\n### B\nx".data) :=
  ⟨by decide,
   parseSections_heading_emitted ("### A\n### B\nx".data) [] ["### B".data, "x".data]
     ("### A".data) (by decide) (by decide) (by decide)⟩

/-- C7: inserting an exact `(task, result)` duplicate is a no-op; otherwise
the new item is prepended and the list truncated to its 20 newest entries,
so the length never exceeds 20; below the cap nothing is evicted, and at the
cap exactly the oldest (last) entry is evicted. -/
theorem saveToHistory_spec (now : Nat) (history : List HistoryItem)
    (taskPrompt newResult : Str) :
    ((∃ h ∈ history, h.task = taskPrompt ∧ h.result = newResult) →
      saveToHistory now history taskPrompt newResult = history) ∧
    ((∀ h ∈ history, ¬(h.task = taskPrompt ∧ h.result = newResult)) →
      saveToHistory now history taskPrompt newResult =
        ((⟨now, now, taskPrompt, newResult⟩ : HistoryItem) :: history).take 20 ∧
      (saveToHistory now history taskPrompt newResult).length ≤ 20 ∧
      (history.length < 20 →
        saveToHistory now history taskPrompt newResult =
          (⟨now, now, taskPrompt, newResult⟩ : HistoryItem) :: history) ∧
      (history.length = 20 →
        saveToHistory now history taskPrompt newResult =
          (⟨now, now, taskPrompt, newResult⟩ : HistoryItem) :: history.dropLast)) := by
  constructor
  · intro hdup
    obtain ⟨h, hmem, htask, hres⟩ := hdup
    have hany : (history.any fun h => h.task == taskPrompt && h.result == newResult) = true := by
      rw [List.any_eq_true]
      exact ⟨h, hmem, by simp [htask, hres]⟩
    simp [saveToHistory, hany]
  · intro hnodup
    have hany : (history.any fun h => h.task == taskPrompt && h.result == newResult) = false := by
      rw [Bool.eq_false_iff]
      intro hc
      rw [List.any_eq_true] at hc
      obtain ⟨h, hmem, hh⟩ := hc
      simp only [Bool.and_eq_true, beq_iff_eq] at hh
      exact hnodup h hmem hh
    have heq : saveToHistory now history taskPrompt newResult =
        ((⟨now, now, taskPrompt, newResult⟩ : HistoryItem) :: history).take 20 := by
      simp [saveToHistory, hany]
    refine ⟨heq, ?_, ?_, ?_⟩
    · rw [heq, List.length_take]
      exact min_le_left _ _
    · intro hlt
      rw [heq]
      exact List.take_of_length_le (by simp only [List.length_cons]; omega)
    · intro h20
      rw [heq]
      have h19 : history.take 19 = history.dropLast := by
        rw [List.dropLast_eq_take, h20]
      rw [List.take_succ_cons, h19]

/-- Witness for C7: a duplicate insert is a no-op, a fresh insert below the
cap prepends without eviction. -/
theorem saveToHistory_spec_witness :
    saveToHistory 1 [⟨0, 0, "t".data, "r".data⟩] ("t".data) ("r".data) =
      [⟨0, 0, "t".data, "r".data⟩] ∧
    saveToHistory 1 [⟨0, 0, "t".data, "r".data⟩] ("t".data) ("s".data) =
      [⟨1, 1, "t".data, "s".data⟩, ⟨0, 0, "t".data, "r".data⟩] :=
  ⟨(saveToHistory_spec 1 [⟨0, 0, "t".data, "r".data⟩] ("t".data) ("r".data)).1
      ⟨⟨0, 0, "t".data, "r".data⟩, by decide, by decide⟩,
   ((saveToHistory_spec 1 [⟨0, 0, "t".data, "r".data⟩] ("t".data) ("s".data)).2
      (by decide)).2.2.1 (by decide)⟩

/-- C5: the export filter excludes a Section exactly when its lowercased
title contains "automation json" while `includeJson` is off, or contains
"accessibility" while `includeA11y` is off; all other Sections are kept in
their original order, for every configuration. -/
theorem filteredSections_spec (sections : List Section) (includeJson includeA11y : Bool) :
    filteredSections sections includeJson includeA11y =
      sections.filter (fun s =>
        !((includesStr (lowerStr s.title) ("automation json".data) && !includeJson) ||
          (includesStr (lowerStr s.title) ("accessibility".data) && !includeA11y))) := by
  unfold filteredSections
  congr 1
  funext s
  cases hj : includesStr (lowerStr s.title) ("automation json".data) <;>
    cases ha : includesStr (lowerStr s.title) ("accessibility".data) <;>
      cases includeJson <;> cases includeA11y <;>
        simp [sectionIncluded, hj, ha]

/-- C8: a primary success is returned as-is (the fallback is never
consulted); a primary "not found"-class failure is retried exactly once
against the fallback model, whose outcome (success, or failure re-wrapped by
the outer catch) becomes the result; any other primary failure is propagated
immediately, independently of the fallback's outcome. -/
theorem runUniversalInterface_fallback (primary fallback : Except GeminiError Str) :
    (∀ t, primary = .ok t → runUniversalInterface primary fallback = .ok t) ∧
    (∀ e, primary = .error e → isNotFoundError e = true →
      runUniversalInterface primary fallback =
        (match fallback with
         | .ok t => .ok t
         | .error e2 => .error (mkClientError e2))) ∧
    (∀ e, primary = .error e → isNotFoundError e = false →
      (runUniversalInterface primary fallback = .error (mkClientError e) ∧
       ∀ fallback2, runUniversalInterface primary fallback2 =
         runUniversalInterface primary fallback)) := by
  refine ⟨?_, ?_, ?_⟩
  · intro t ht
    subst ht
    rfl
  · intro e he hnf
    subst he
    cases fallback <;> simp [runUniversalInterface, hnf]
  · intro e he hnf
    subst he
    exact ⟨by simp [runUniversalInterface, hnf], fun fallback2 => by
      simp [runUniversalInterface, hnf]⟩

/-- Witness for C8: a "404"-message primary failure falls back (and the
fallback's success is returned); a quota-style failure propagates without
consulting the fallback. -/
theorem runUniversalInterface_fallback_witness :
    runUniversalInterface (.error ⟨"404 model not found".data, none⟩) (.ok ("hi".data)) =
      .ok ("hi".data) ∧
    runUniversalInterface (.error ⟨"quota exceeded".data, some 429⟩) (.ok ("hi".data)) =
      .error ⟨"quota exceeded".data, none⟩ :=
  ⟨(runUniversalInterface_fallback (.error ⟨"404 model not found".data, none⟩)
      (.ok ("hi".data))).2.1 _ rfl (by decide),
   ((runUniversalInterface_fallback (.error ⟨"quota exceeded".data, some 429⟩)
      (.ok ("hi".data))).2.2 _ rfl (by decide)).1⟩

/-- Helper for C3: under `fitsAll`, the loop never breaks the page, so the
final cursor is the start cursor plus the sum of (height + gutter), and
every block lands on the starting page. -/
theorem paginateRun_no_break (hs : List ℚ) : ∀ (p : Nat) (y : ℚ),
    fitsAll y hs = true →
    (paginateRun p y hs).2 = y + (hs.map (fun h => h + gutter)).sum ∧
    ∀ pl ∈ (paginateRun p y hs).1, pl.page = p := by
  induction hs with
  | nil =>
    intro p y _
    simp [paginateRun]
  | cons h hs ih =>
    intro p y hfit
    simp only [fitsAll, Bool.and_eq_true, decide_eq_true_eq] at hfit
    obtain ⟨hle, hrest⟩ := hfit
    have hnb : ¬(pageHeight - margin < y + h) := not_lt.mpr hle
    obtain ⟨ihsum, ihpage⟩ := ih p (y + h + gutter) hrest
    constructor
    · simp only [paginateRun, if_neg hnb, List.map_cons, List.sum_cons, ihsum]
      ring
    · intro pl hpl
      simp only [paginateRun, if_neg hnb, List.mem_cons] at hpl
      rcases hpl with rfl | hpl
      · rfl
      · exact ihpage pl hpl

/-- C3: a block is placed at the current cursor exactly when
`cursorY + height <= pageHeight - margin`, and otherwise on a fresh page at
the top margin, the cursor advancing by `height + gutter` either way; and
after placing any sequence of blocks with no page break starting at the top
margin, the cursor equals `margin + sum(height_i + gutter)`. -/
theorem generatePdf_pagination_spec (p : Nat) (y h : ℚ) (hs : List ℚ) :
    (y + h ≤ pageHeight - margin →
      paginateRun p y (h :: hs) =
        (⟨p, y⟩ :: (paginateRun p (y + h + gutter) hs).1,
         (paginateRun p (y + h + gutter) hs).2)) ∧
    (pageHeight - margin < y + h →
      paginateRun p y (h :: hs) =
        (⟨p + 1, margin⟩ :: (paginateRun (p + 1) (margin + h + gutter) hs).1,
         (paginateRun (p + 1) (margin + h + gutter) hs).2)) ∧
    (fitsAll margin hs = true →
      (paginateRun p margin hs).2 = margin + (hs.map (fun x => x + gutter)).sum ∧
      ∀ pl ∈ (paginateRun p margin hs).1, pl.page = p) := by
  refine ⟨?_, ?_, ?_⟩
  · intro hle
    simp [paginateRun, not_lt.mpr hle]
  · intro hgt
    simp [paginateRun, hgt]
  · exact paginateRun_no_break hs p margin

/-- Witness for C3: two blocks of heights 100mm and 50mm fit without a
break; the first is placed at the 20mm cursor and the final cursor is
`20 + (100+5) + (50+5) = 180`. -/
theorem generatePdf_pagination_spec_witness :
    paginateRun 0 20 [100, 50] =
      (⟨0, 20⟩ :: (paginateRun 0 (20 + 100 + gutter) [50]).1,
       (paginateRun 0 (20 + 100 + gutter) [50]).2) ∧
    (paginateRun 0 margin [100, 50]).2 =
      margin + (([100, 50] : List ℚ).map (fun x => x + gutter)).sum :=
  ⟨by
    have := (generatePdf_pagination_spec 0 20 100 [50]).1 (by norm_num [pageHeight, margin])
    simpa using this,
   ((generatePdf_pagination_spec 0 20 100 [100, 50]).2.2
      (by norm_num [fitsAll, margin, pageHeight, gutter])).1⟩

/-- C10: the screenshot is scaled by the single factor
`min(170/w, 257/h)`, so the placed image keeps its aspect ratio, fits in the
20mm margin box (width <= 170mm, height <= 257mm), is centered horizontally
(equal gaps to the 20mm and 190mm margin edges), and its top edge sits at
y = 20mm. -/
theorem screenshot_page_spec (w h : ℚ) (hw : 0 < w) (hh : 0 < h) :
    (screenshotPlacement w h).2.2.1 = w * min (170 / w) (257 / h) ∧
    (screenshotPlacement w h).2.2.2 = h * min (170 / w) (257 / h) ∧
    (screenshotPlacement w h).2.2.1 ≤ 170 ∧
    (screenshotPlacement w h).2.2.2 ≤ 257 ∧
    (screenshotPlacement w h).2.2.2 * w = (screenshotPlacement w h).2.2.1 * h ∧
    (screenshotPlacement w h).1 - margin = (170 - (screenshotPlacement w h).2.2.1) / 2 ∧
    (screenshotPlacement w h).1 - margin =
      (pageWidth - margin) - ((screenshotPlacement w h).1 + (screenshotPlacement w h).2.2.1) ∧
    (screenshotPlacement w h).2.1 = margin := by
  have hmw : pageWidth - margin * 2 = (170 : ℚ) := by norm_num [pageWidth, margin]
  have hmh : pageHeight - margin * 2 = (257 : ℚ) := by norm_num [pageHeight, margin]
  have hx1 : (screenshotPlacement w h).1 =
      margin + (170 - w * min (170 / w) (257 / h)) / 2 := by
    simp only [screenshotPlacement, hmw, hmh]
  have hy : (screenshotPlacement w h).2.1 = margin := by
    simp only [screenshotPlacement]
  have hwr : (screenshotPlacement w h).2.2.1 = w * min (170 / w) (257 / h) := by
    simp only [screenshotPlacement, hmw, hmh]
  have hhr : (screenshotPlacement w h).2.2.2 = h * min (170 / w) (257 / h) := by
    simp only [screenshotPlacement, hmw, hmh]
  have hwbound : w * min (170 / w) (257 / h) ≤ 170 := by
    have h1 : w * min (170 / w) (257 / h) ≤ w * (170 / w) :=
      mul_le_mul_of_nonneg_left (min_le_left _ _) (le_of_lt hw)
    have h2 : w * (170 / w) = 170 := by
      field_simp
    rw [h2] at h1
    exact h1
  have hhbound : h * min (170 / w) (257 / h) ≤ 257 := by
    have h1 : h * min (170 / w) (257 / h) ≤ h * (257 / h) :=
      mul_le_mul_of_nonneg_left (min_le_right _ _) (le_of_lt hh)
    have h2 : h * (257 / h) = 257 := by
      field_simp
    rw [h2] at h1
    exact h1
  refine ⟨hwr, hhr, ?_, ?_, ?_, ?_, ?_, hy⟩
  · rw [hwr]; exact hwbound
  · rw [hhr]; exact hhbound
  · rw [hwr, hhr]; ring
  · rw [hx1, hwr]; ring
  · rw [hx1, hwr]; simp only [pageWidth, margin]; ring

/-- Witness for C10 at a 340x514-pixel screenshot (scale factor 1/2). -/
theorem screenshot_page_spec_witness :
    (0 : ℚ) < 340 ∧ (0 : ℚ) < 514 ∧
    ((screenshotPlacement 340 514).2.2.1 = 340 * min (170 / 340) (257 / 514) ∧
     (screenshotPlacement 340 514).2.2.2 = 514 * min (170 / 340) (257 / 514) ∧
     (screenshotPlacement 340 514).2.2.1 ≤ 170 ∧
     (screenshotPlacement 340 514).2.2.2 ≤ 257 ∧
     (screenshotPlacement 340 514).2.2.2 * 340 = (screenshotPlacement 340 514).2.2.1 * 514 ∧
     (screenshotPlacement 340 514).1 - margin =
       (170 - (screenshotPlacement 340 514).2.2.1) / 2 ∧
     (screenshotPlacement 340 514).1 - margin =
       (pageWidth - margin) -
         ((screenshotPlacement 340 514).1 + (screenshotPlacement 340 514).2.2.1) ∧
     (screenshotPlacement 340 514).2.1 = margin) :=
  ⟨by norm_num, by norm_num,
   screenshot_page_spec 340 514 (by norm_num) (by norm_num)⟩

/-- C4: at a failing input (the first block's rasterization throws) the
temporary snapshot node is NOT removed — `generatePdfRun` returns with
`tempAttached = true`, contradicting the claim that it is always removed;
no partial PDF is saved on failure (that half of the claim holds), and on a
fully successful run the node is removed and the file saved. -/
theorem generatePdf_leaks_temp_on_failure :
    generatePdfRun [false] true =
      ⟨true, false, true⟩ ∧
    generatePdfRun [true] false =
      ⟨true, false, true⟩ ∧
    generatePdfRun [true] true =
      ⟨false, true, false⟩ := by
  refine ⟨rfl, rfl, rfl⟩

/-- Characters surviving `matchParen` come from its input. -/
theorem matchParen_subset (cs : Str) : ∀ rest, matchParen cs = some rest →
    ∀ x ∈ rest, x ∈ cs := by
  induction cs with
  | nil => intro rest h; simp [matchParen] at h
  | cons c cs ih =>
    intro rest h x hx
    by_cases hc : (c == ')') = true
    · simp only [matchParen, hc, if_true] at h
      cases h
      exact List.mem_cons_of_mem _ hx
    · by_cases hd : isDotChar c = true
      · simp only [matchParen, hc, hd, if_true, if_false, Bool.false_eq_true] at h
        exact List.mem_cons_of_mem _ (ih rest h x hx)
      · simp only [matchParen, hc, hd, if_false, Bool.false_eq_true] at h
        cases h

/-- A successful `tryCloseAt` has an empty label and a remainder drawn from
its input. -/
theorem tryCloseAt_subset (c : Char) (cs : Str) (label rest : Str)
    (h : tryCloseAt c cs = some (label, rest)) :
    label = [] ∧ ∀ x ∈ rest, x ∈ cs := by
  by_cases hc : (c == ']') = true
  · cases cs with
    | nil => simp [tryCloseAt, hc] at h
    | cons c2 cs2 =>
      by_cases h2 : (c2 == '(') = true
      · cases hp : matchParen cs2 with
        | none => simp [tryCloseAt, hc, h2, hp] at h
        | some rest2 =>
          simp only [tryCloseAt, hc, h2, hp, if_true] at h
          obtain ⟨hl, hr⟩ := Prod.mk.injEq .. ▸ Option.some.injEq .. ▸ h
          refine ⟨hl.symm, ?_⟩
          intro x hx
          rw [← hr] at hx
          exact List.mem_cons_of_mem _ (matchParen_subset cs2 rest2 hp x hx)
      · simp [tryCloseAt, hc, h2] at h
  · simp [tryCloseAt, hc] at h

/-- Characters of the label and the remainder of a successful
`matchAfterBracket` come from its input. -/
theorem matchAfterBracket_subset (cs : Str) : ∀ label rest,
    matchAfterBracket cs = some (label, rest) →
    (∀ x ∈ label, x ∈ cs) ∧ (∀ x ∈ rest, x ∈ cs) := by
  induction cs with
  | nil => intro label rest h; simp [matchAfterBracket] at h
  | cons c cs ih =>
    intro label rest h
    cases htc : tryCloseAt c cs with
    | some r =>
      rw [matchAfterBracket, htc] at h
      have hreq : r = (label, rest) := by injection h
      subst hreq
      obtain ⟨hl, hr⟩ := tryCloseAt_subset c cs label rest htc
      constructor
      · intro x hx
        rw [hl] at hx
        simp at hx
      · exact fun x hx => List.mem_cons_of_mem _ (hr x hx)
    | none =>
      rw [matchAfterBracket, htc] at h
      by_cases hd : isDotChar c = true
      · rw [if_pos hd] at h
        cases hm : matchAfterBracket cs with
        | none => rw [hm] at h; cases h
        | some p =>
          rw [hm] at h
          obtain ⟨ihl, ihr⟩ := ih p.1 p.2 (by rw [hm])
          cases h
          constructor
          · intro x hx
            rcases List.mem_cons.mp hx with rfl | hx
            · exact List.mem_cons_self _ _
            · exact List.mem_cons_of_mem _ (ihl x hx)
          · intro x hx
            exact List.mem_cons_of_mem _ (ihr x hx)
      · rw [if_neg hd] at h; cases h

/-- Characters of the link-replaced string come from its input. -/
theorem replaceLinksAux_subset : ∀ (fuel : Nat) (s : Str), ∀ x ∈ replaceLinksAux fuel s,
    x ∈ s := by
  intro fuel
  induction fuel with
  | zero => intro s x hx; simpa [replaceLinksAux] using hx
  | succ fuel ih =>
    intro s x hx
    cases s with
    | nil => simp [replaceLinksAux] at hx
    | cons c cs =>
      by_cases hc : (c == '[') = true
      · rw [replaceLinksAux, if_pos hc] at hx
        cases hm : matchAfterBracket cs with
        | none =>
          rw [hm] at hx
          rcases List.mem_cons.mp hx with rfl | hx
          · exact List.mem_cons_self _ _
          · exact List.mem_cons_of_mem _ (ih cs x hx)
        | some p =>
          rw [hm] at hx
          obtain ⟨hlab, hrest⟩ := matchAfterBracket_subset cs p.1 p.2 (by rw [hm])
          rcases List.mem_append.mp hx with hx | hx
          · exact List.mem_cons_of_mem _ (hlab x hx)
          · exact List.mem_cons_of_mem _ (hrest x (ih p.2 x hx))
      · rw [replaceLinksAux, if_neg hc] at hx
        rcases List.mem_cons.mp hx with rfl | hx
        · exact List.mem_cons_self _ _
        · exact List.mem_cons_of_mem _ (ih cs x hx)

/-- Characters of the newline-collapsed string are newlines or come from
its input. -/
theorem collapseAux_subset (s : Str) : ∀ (n : Nat) (x : Char),
    x ∈ collapseAux n s → x = '\n' ∨ x ∈ s := by
  induction s with
  | nil => intro n x hx; simp [collapseAux] at hx
  | cons c cs ih =>
    intro n x hx
    by_cases hc : (c == '\n') = true
    · rw [collapseAux, if_pos hc] at hx
      rcases List.mem_append.mp hx with hx | hx
      · left
        by_cases hn : n < 2
        · rw [if_pos hn] at hx; simpa using hx
        · rw [if_neg hn] at hx; cases hx
      · rcases ih (n + 1) x hx with h | h
        · exact Or.inl h
        · exact Or.inr (List.mem_cons_of_mem _ h)
    · rw [collapseAux, if_neg hc] at hx
      rcases List.mem_cons.mp hx with rfl | hx
      · exact Or.inr (List.mem_cons_self _ _)
      · rcases ih 0 x hx with h | h
        · exact Or.inl h
        · exact Or.inr (List.mem_cons_of_mem _ h)

/-- Characters of `dropWhile` output come from its input. -/
theorem dropWhile_subset (p : Char → Bool) (s : Str) :
    ∀ x ∈ s.dropWhile p, x ∈ s := by
  intro x hx
  rw [← List.takeWhile_append_dropWhile (p := p) (l := s)]
  exact List.mem_append_right _ hx

/-- Characters of the trimmed string come from its input. -/
theorem trimStr_subset (s : Str) : ∀ x ∈ trimStr s, x ∈ s := by
  intro x hx
  unfold trimStr at hx
  rw [List.mem_reverse] at hx
  have h1 := dropWhile_subset isJsWhitespace (s.dropWhile isJsWhitespace).reverse x hx
  rw [List.mem_reverse] at h1
  exact dropWhile_subset isJsWhitespace s x h1

/-- `startsNl` on a cons. -/
theorem startsNl_cons (c : Char) (t : Str) : startsNl (c :: t) = (c == '\n') := rfl

/-- `startsNlNl` on a cons. -/
theorem startsNlNl_cons (c : Char) (t : Str) :
    startsNlNl (c :: t) = (c == '\n' && startsNl t) := by
  cases t <;> simp [startsNlNl, startsNl]

/-- `startsNlNlNl` on a cons. -/
theorem startsNlNlNl_cons (c : Char) (t : Str) :
    startsNlNlNl (c :: t) = (c == '\n' && startsNlNl t) := by
  cases t with
  | nil => simp [startsNlNlNl, startsNlNl]
  | cons c2 t2 =>
    cases t2 <;> simp [startsNlNlNl, startsNlNl, Bool.and_assoc]

/-- A leading newline triple survives appending on the right. -/
theorem startsNlNlNl_append (a b : Str) (h : startsNlNlNl a = true) :
    startsNlNlNl (a ++ b) = true := by
  rcases a with _ | ⟨c1, _ | ⟨c2, _ | ⟨c3, t⟩⟩⟩ <;>
    simp_all [startsNlNlNl]

/-- A suffix of a triple-free string is triple-free. -/
theorem noTripleNl_append_right (a b : Str) (h : noTripleNl (a ++ b) = true) :
    noTripleNl b = true := by
  induction a with
  | nil => exact h
  | cons c a1 ih =>
    rw [List.cons_append, noTripleNl, Bool.and_eq_true] at h
    exact ih h.2

/-- A prefix of a triple-free string is triple-free. -/
theorem noTripleNl_append_left (a b : Str) (h : noTripleNl (a ++ b) = true) :
    noTripleNl a = true := by
  induction a with
  | nil => rfl
  | cons c a1 ih =>
    rw [List.cons_append, noTripleNl, Bool.and_eq_true] at h
    rw [noTripleNl, Bool.and_eq_true]
    refine ⟨?_, ih h.2⟩
    rw [Bool.not_eq_true'] at h ⊢
    by_cases hs : startsNlNlNl (c :: a1) = true
    · have := startsNlNlNl_append (c :: a1) b hs
      rw [List.cons_append] at this
      rw [this] at h
      cases h.1
    · simpa using hs

/-- Invariant of the newline-collapsing scan: its output is triple-free,
and after one (resp. two) newlines already emitted the output cannot start
with two (resp. one) more. -/
theorem collapseAux_ok (s : Str) : ∀ n : Nat,
    noTripleNl (collapseAux n s) = true ∧
    (1 ≤ n → startsNlNl (collapseAux n s) = false) ∧
    (2 ≤ n → startsNl (collapseAux n s) = false) := by
  induction s with
  | nil => intro n; refine ⟨rfl, fun _ => rfl, fun _ => rfl⟩
  | cons c cs ih =>
    intro n
    by_cases hc : (c == '\n') = true
    · by_cases hn : n < 2
      · have hout : collapseAux n (c :: cs) = '\n' :: collapseAux (n + 1) cs := by
          rw [collapseAux, if_pos hc, if_pos hn]
          rfl
        obtain ⟨ih1, ih2, ih3⟩ := ih (n + 1)
        have h2 : startsNlNl (collapseAux (n + 1) cs) = false := ih2 (by omega)
        refine ⟨?_, ?_, ?_⟩
        · rw [hout, noTripleNl, Bool.and_eq_true, startsNlNlNl_cons, h2]
          exact ⟨by simp, ih1⟩
        · intro h1n
          have h3 : startsNl (collapseAux (n + 1) cs) = false := ih3 (by omega)
          rw [hout, startsNlNl_cons, h3]
          simp
        · intro h2n
          omega
      · have hout : collapseAux n (c :: cs) = collapseAux (n + 1) cs := by
          rw [collapseAux, if_pos hc, if_neg hn]
          rfl
        obtain ⟨ih1, ih2, ih3⟩ := ih (n + 1)
        refine ⟨?_, ?_, ?_⟩
        · rw [hout]; exact ih1
        · intro _; rw [hout]; exact ih2 (by omega)
        · intro _; rw [hout]; exact ih3 (by omega)
    · have hcf : (c == '\n') = false := by simpa using hc
      have hout : collapseAux n (c :: cs) = c :: collapseAux 0 cs := by
        rw [collapseAux, if_neg hc]
      obtain ⟨ih1, _, _⟩ := ih 0
      refine ⟨?_, ?_, ?_⟩
      · rw [hout, noTripleNl, startsNlNlNl_cons]
        simp [hcf, ih1]
      · intro _
        rw [hout, startsNlNl_cons, hcf]
        simp
      · intro _
        rw [hout, startsNl_cons]
        exact hcf

/-- Trimming preserves triple-freeness (the trimmed string is an infix). -/
theorem noTripleNl_trimStr (s : Str) (h : noTripleNl s = true) :
    noTripleNl (trimStr s) = true := by
  unfold trimStr
  set s1 := s.dropWhile isJsWhitespace with hs1
  have hns1 : noTripleNl s1 = true := by
    have := List.takeWhile_append_dropWhile (p := isJsWhitespace) (l := s)
    rw [← this] at h
    exact noTripleNl_append_right _ _ h
  set s2 := s1.reverse.dropWhile isJsWhitespace with hs2
  have hsplit : s1 = s2.reverse ++ (s1.reverse.takeWhile isJsWhitespace).reverse := by
    have := List.takeWhile_append_dropWhile (p := isJsWhitespace) (l := s1.reverse)
    calc s1 = s1.reverse.reverse := by rw [List.reverse_reverse]
    _ = (s1.reverse.takeWhile isJsWhitespace ++ s2).reverse := by rw [this]
    _ = s2.reverse ++ (s1.reverse.takeWhile isJsWhitespace).reverse := by
        rw [List.reverse_append]
  rw [hsplit] at hns1
  exact noTripleNl_append_left _ _ hns1

/-- C9: the plain-text conversion used by copy-to-clipboard, the `.txt`
download and text-to-speech never emits `*`, backquote or `>` (every
occurrence in the input is removed), and the final text never contains a
run of three or more consecutive newlines (every longer run was collapsed
to exactly two). -/
theorem cleanMarkdown_plaintext (md : Str) :
    (cleanMarkdown md).all (fun c => !(isSpecialChar c)) = true ∧
    noTripleNl (cleanMarkdown md) = true := by
  constructor
  · rw [List.all_eq_true]
    intro x hx
    unfold cleanMarkdown at hx
    have h1 := trimStr_subset _ x hx
    rw [collapseNewlines] at h1
    rcases collapseAux_subset _ 0 x h1 with rfl | h2
    · decide
    · rw [replaceLinks] at h2
      have h3 := replaceLinksAux_subset _ _ x h2
      rw [removeSpecialChars, List.mem_filter] at h3
      exact h3.2
  · unfold cleanMarkdown
    rw [collapseNewlines]
    exact noTripleNl_trimStr _ (collapseAux_ok _ 0).1
